import Mathlib

/-!
Verification of the saphir request-dispatch core (`src/controller.rs`).

The dispatch engine selects a registered handler by HTTP method and URL-path
pattern, runs an ordered chain of guards, and invokes the matched handler.
The request/response types, the HTTP method and status vocabulary and the
pattern compiler are external collaborators of the core; they are modelled
from their interface contract (spec section 6).  The dispatch table, guard
collection, dispatch algorithm and the built-in body guard are translated
from `src/controller.rs`.

Besides the direct translation `ControllerDispatch.dispatch`, an
instrumented variant `ControllerDispatch.dispatchT` with identical control
flow also returns the list of guard or handler invocation events, so that
at-most-once and never-invoked properties can be stated; the theorem
`dispatchT_fst` proves the two variants compute the same response.
-/

namespace Saphir

/-- Modelled from the spec: the fixed enumeration of HTTP methods provided by
the external HTTP library (section 6: at least GET/POST/PUT/DELETE/etc.). -/
inductive Method : Type where
  | Get
  | Post
  | Put
  | Delete
  | Patch
  | Head
  | Options
deriving DecidableEq, Repr

/-- "method not allowed" status value (405-equivalent, spec section 6). -/
def METHOD_NOT_ALLOWED : Nat := 405

/-- "bad request" status value (400-equivalent, spec section 6). -/
def BAD_REQUEST : Nat := 400

/-- Modelled from the spec: a request exposes an HTTP method, a URL path and
a body with a measurable length (section 6). -/
structure SyncRequest : Type where
  method : Method
  path : String
  body : List Nat
deriving DecidableEq, Repr

/-- Modelled from the spec: a response exposes a way to set an HTTP status
code, and guards and handlers write into it (section 6).  The body field
stands for the rest of the mutable response state. -/
structure SyncResponse : Type where
  statusCode : Option Nat
  body : List Nat
deriving DecidableEq, Repr

/-- `res.status(code)` of the external response type: set the status code. -/
def SyncResponse.status (res : SyncResponse) (code : Nat) : SyncResponse :=
  { res with statusCode := some code }

/-- Modelled from the spec: a compiled path matcher produced by the external
pattern compiler (section 6).  The model supports literal characters with an
optional start anchor and an optional end anchor, which is enough to express
the spec's matcher semantics: "contains a match", not "fully anchors",
unless the pattern itself anchors. -/
structure Regex : Type where
  anchoredStart : Bool
  anchoredEnd : Bool
  lits : List Char
deriving DecidableEq, Repr

/-- A character the modelled pattern compiler accepts as a literal. -/
def plainChar (c : Char) : Bool :=
  !(c = '^' || c = '$' || c = '(' || c = ')' || c = '[' || c = ']' ||
    c = '*' || c = '+' || c = '?' || c = '|' || c = '.')

/-- Modelled from the spec: the external pattern compiler converts a path
specification into a matcher and may fail for malformed specifications
(section 6).  A leading `^` anchors the start, a trailing `$` anchors the
end; any remaining occurrence of a metacharacter makes the specification
malformed in this model. -/
def compileRegex (pat : String) : Option Regex :=
  let cs := pat.data
  let withStart : Bool × List Char :=
    match cs with
    | '^' :: rest => (true, rest)
    | _ => (false, cs)
  let withEnd : Bool × List Char :=
    match withStart.2.reverse with
    | '$' :: rest => (true, rest.reverse)
    | _ => (false, withStart.2)
  if withEnd.2.all plainChar then
    some ⟨withStart.1, withEnd.1, withEnd.2⟩
  else
    Option.none

/-- Does `hay` contain `needle` as a contiguous run, anywhere. -/
def containsRun (needle : List Char) : List Char → Bool
  | [] => needle.isEmpty
  | c :: t => needle.isPrefixOf (c :: t) || containsRun needle t

/-- Modelled from the spec: `Regex::is_match` semantics — does the path
contain a match of the pattern anywhere (section 4.3 step 4), with anchors
restricting where the match may start or end. -/
def Regex.isMatch (r : Regex) (path : String) : Bool :=
  match r.anchoredStart, r.anchoredEnd with
  | true, true => path.data == r.lits
  | true, false => r.lits.isPrefixOf path.data
  | false, true => r.lits.isSuffixOf path.data
  | false, false => containsRun r.lits path.data

/-- `RequestContinuation` (from `utils`): the two-valued signal a guard
returns to the dispatcher. -/
inductive RequestContinuation : Type where
  | Next
  | None
deriving DecidableEq, Repr

/-- The `RequestGuard` trait: `validate(&self, req, res) -> RequestContinuation`
with `res` passed by mutable reference, embedded as a function returning the
continuation together with the (possibly mutated) response. -/
structure RequestGuard : Type where
  validate : SyncRequest → SyncResponse → RequestContinuation × SyncResponse

/-- `RequestGuardCollection`: an ordered list of guards. -/
structure RequestGuardCollection : Type where
  guards : List RequestGuard

/-- `RequestGuardCollection::new`. -/
def RequestGuardCollection.new : RequestGuardCollection := ⟨[]⟩

/-- `RequestGuardCollection::add`: push a guard at the end. -/
def RequestGuardCollection.add (c : RequestGuardCollection) (g : RequestGuard) :
    RequestGuardCollection :=
  ⟨c.guards ++ [g]⟩

/-- `ControllerDelegate<T>`: one route entry
`(Method, Regex, Option<RequestGuardCollection>, Box<DelegateFunction<T>>)`. -/
structure ControllerDelegate (T : Type) : Type where
  method : Method
  reg : Regex
  guards : Option RequestGuardCollection
  func : T → SyncRequest → SyncResponse → SyncResponse

/-- `ControllerDispatch<T>`: the delegate context together with the list of
delegates.  The `RwLock` around the list mediates concurrent access in the
source and has no counterpart in this sequential embedding. -/
structure ControllerDispatch (T : Type) : Type where
  delegate_context : T
  delegates : List (ControllerDelegate T)

/-- `ControllerDispatch::new`. -/
def ControllerDispatch.new {T : Type} (delegate_context : T) : ControllerDispatch T :=
  ⟨delegate_context, []⟩

/-- `ControllerDispatch::add`, modelled from the spec where it leaves the
source: the path specification is compiled by the external pattern compiler
and a compilation error is surfaced synchronously to the caller with no
route added (spec sections 4.3 and 7), embedded as an `Option` result; on
success the entry `(method, matcher, none, handler)` is pushed at the end of
the delegate list, as in the source. -/
def ControllerDispatch.add {T : Type} (d : ControllerDispatch T) (method : Method)
    (path : String) (delegate_func : T → SyncRequest → SyncResponse → SyncResponse) :
    Option (ControllerDispatch T) :=
  (compileRegex path).map fun r =>
    ⟨d.delegate_context, d.delegates ++ [⟨method, r, Option.none, delegate_func⟩]⟩

/-- `ControllerDispatch::add_with_guards`: as `add`, but the entry carries
the given guard collection. -/
def ControllerDispatch.add_with_guards {T : Type} (d : ControllerDispatch T)
    (method : Method) (path : String) (guards : RequestGuardCollection)
    (delegate_func : T → SyncRequest → SyncResponse → SyncResponse) :
    Option (ControllerDispatch T) :=
  (compileRegex path).map fun r =>
    ⟨d.delegate_context, d.delegates ++ [⟨method, r, some guards, delegate_func⟩]⟩

/-- The guard loop inside `dispatch`: run the guards in order on the
response; the first guard returning `None` stops the loop with the response
as that guard left it. -/
def runGuards (req : SyncRequest) :
    List RequestGuard → SyncResponse → RequestContinuation × SyncResponse
  | [], res => (RequestContinuation.Next, res)
  | g :: gs, res =>
    match g.validate req res with
    | (RequestContinuation.None, res') => (RequestContinuation.None, res')
    | (RequestContinuation.Next, res') => runGuards req gs res'

/-- The `for del in retained_delegate` loop of `dispatch`: scan the retained
delegates in order; at the first entry whose pattern matches the path, run
its guards (if any) and then its handler, returning early; if the scan
completes, set the status to `BAD_REQUEST`. -/
def dispatchLoop {T : Type} (ctx : T) (req : SyncRequest) :
    List (ControllerDelegate T) → SyncResponse → SyncResponse
  | [], res => res.status BAD_REQUEST
  | del :: rest, res =>
    if del.reg.isMatch req.path then
      match del.guards with
      | some guards =>
        match runGuards req guards.guards res with
        | (RequestContinuation.None, res') => res'
        | (RequestContinuation.Next, res') => del.func ctx req res'
      | Option.none => del.func ctx req res
    else
      dispatchLoop ctx req rest res

/-- `ControllerDispatch::dispatch`: filter the delegates by the request's
method; if none remain, answer `METHOD_NOT_ALLOWED`; otherwise scan the
retained delegates for the first path match. -/
def ControllerDispatch.dispatch {T : Type} (d : ControllerDispatch T)
    (req : SyncRequest) (res : SyncResponse) : SyncResponse :=
  let method := req.method
  let retained_delegate := d.delegates.filter fun x => x.method == method
  if retained_delegate.length == 0 then
    res.status METHOD_NOT_ALLOWED
  else
    dispatchLoop d.delegate_context req retained_delegate res

/-- An observable invocation event of the dispatcher: entry `i`'s guard
number `j` was run, or entry `i`'s handler was run.  Entries are numbered by
their position in the delegate list (registration order). -/
inductive TraceEvent : Type where
  | guardRun (entry : Nat) (guard : Nat)
  | handlerRun (entry : Nat)
deriving DecidableEq, Repr

/-- The entry index of a handler invocation event. -/
def handlerIdx : TraceEvent → Option Nat
  | TraceEvent.handlerRun i => some i
  | TraceEvent.guardRun _ _ => Option.none

/-- Instrumented guard loop: same control flow as `runGuards` over the
guards of entry `i` starting at guard number `j`, additionally returning the
invocation events in order. -/
def runGuardsT (req : SyncRequest) (i : Nat) :
    Nat → List RequestGuard → SyncResponse →
      RequestContinuation × SyncResponse × List TraceEvent
  | _, [], res => (RequestContinuation.Next, res, [])
  | j, g :: gs, res =>
    match g.validate req res with
    | (RequestContinuation.None, res') =>
      (RequestContinuation.None, res', [TraceEvent.guardRun i j])
    | (RequestContinuation.Next, res') =>
      let rest := runGuardsT req i (j + 1) gs res'
      (rest.1, rest.2.1, TraceEvent.guardRun i j :: rest.2.2)

/-- Instrumented dispatch loop: same control flow as `dispatchLoop` over the
retained delegates paired with their registration indices, additionally
returning the invocation events in order. -/
def dispatchLoopT {T : Type} (ctx : T) (req : SyncRequest) :
    List (Nat × ControllerDelegate T) → SyncResponse →
      SyncResponse × List TraceEvent
  | [], res => (res.status BAD_REQUEST, [])
  | (i, del) :: rest, res =>
    if del.reg.isMatch req.path then
      match del.guards with
      | some guards =>
        match runGuardsT req i 0 guards.guards res with
        | (RequestContinuation.None, res', tr) => (res', tr)
        | (RequestContinuation.Next, res', tr) =>
          (del.func ctx req res', tr ++ [TraceEvent.handlerRun i])
      | Option.none => (del.func ctx req res, [TraceEvent.handlerRun i])
    else
      dispatchLoopT ctx req rest res

/-- Instrumented `dispatch`: same control flow as
`ControllerDispatch.dispatch`, additionally returning the invocation
events in order. -/
def ControllerDispatch.dispatchT {T : Type} (d : ControllerDispatch T)
    (req : SyncRequest) (res : SyncResponse) : SyncResponse × List TraceEvent :=
  let method := req.method
  let retained_delegate := d.delegates.enum.filter fun x => x.2.method == method
  if retained_delegate.length == 0 then
    (res.status METHOD_NOT_ALLOWED, [])
  else
    dispatchLoopT d.delegate_context req retained_delegate res

/-- The outcome of the guard phase for an entry's optional guard collection:
no collection means the guards trivially pass with the response untouched. -/
def guardOutcome (req : SyncRequest) (og : Option RequestGuardCollection)
    (res : SyncResponse) : RequestContinuation × SyncResponse :=
  match og with
  | Option.none => (RequestContinuation.Next, res)
  | some gc => runGuards req gc.guards res

/-- Two route entries that agree on method, pattern and handler, whose
guard collections are equal or are a zero-guard collection against no
collection at all. -/
def entryEquiv {T : Type} (e e' : ControllerDelegate T) : Prop :=
  e.method = e'.method ∧ e.reg = e'.reg ∧ e.func = e'.func ∧
    (e.guards = e'.guards ∨
      (e.guards = some (RequestGuardCollection.mk []) ∧ e'.guards = Option.none))

/-- The `Controller` facade: `BasicController` forwards `handle` to its
dispatch table. -/
structure BasicController (C : Type) : Type where
  dispatch : ControllerDispatch C

/-- `BasicController::handle` forwards to `ControllerDispatch::dispatch`. -/
def BasicController.handle {C : Type} (c : BasicController C)
    (req : SyncRequest) (res : SyncResponse) : SyncResponse :=
  c.dispatch.dispatch req res

/-- `BodyGuard::validate`: return `None` when the body length is `<= 0`,
`Next` otherwise; the response is left untouched. -/
def BodyGuard : RequestGuard :=
  ⟨fun req res =>
    if req.body.length ≤ 0 then
      (RequestContinuation.None, res)
    else
      (RequestContinuation.Next, res)⟩

/-! ### Concrete fixtures used to exercise the theorems -/

/-- A handler writing status 200, as a concrete delegate function. -/
def exHandler : Nat → SyncRequest → SyncResponse → SyncResponse :=
  fun _ _ r => r.status 200

/-- The matcher compiled from the specification `^/a`. -/
def exRegexA : Regex := ⟨true, false, ['/', 'a']⟩

/-- A guardless `GET ^/a` entry with `exHandler`. -/
def exDelegate : ControllerDelegate Nat := ⟨Method.Get, exRegexA, Option.none, exHandler⟩

/-- A one-entry table over context `7`. -/
def exTable : ControllerDispatch Nat := ⟨7, [exDelegate]⟩

/-- A `GET /a/b` request with a one-byte body. -/
def exReq : SyncRequest := ⟨Method.Get, "/a/b", [1]⟩

/-- A `POST /a/b` request. -/
def exReqPost : SyncRequest := ⟨Method.Post, "/a/b", [1]⟩

/-- A `GET /z` request. -/
def exReqZ : SyncRequest := ⟨Method.Get, "/z", [1]⟩

/-- A `GET` request with an empty body. -/
def exReqEmpty : SyncRequest := ⟨Method.Get, "/a/b", []⟩

/-- An untouched response. -/
def exRes : SyncResponse := ⟨Option.none, []⟩

/-- A guard that continues, leaving the response as it is. -/
def exNextGuard : RequestGuard :=
  ⟨fun _ res => (RequestContinuation.Next, res)⟩

/-- A guard that stops after writing status 401. -/
def exStopGuard : RequestGuard :=
  ⟨fun _ res => (RequestContinuation.None, res.status 401)⟩

/-- A `GET ^/a` entry guarded by `exNextGuard` then `exStopGuard`. -/
def exGuardedDelegate : ControllerDelegate Nat :=
  ⟨Method.Get, exRegexA, some ⟨[exNextGuard, exStopGuard]⟩, exHandler⟩

/-- A table whose first entry is guarded and whose second entry also
matches `GET /a/b`. -/
def exGuardedTable : ControllerDispatch Nat := ⟨7, [exGuardedDelegate, exDelegate]⟩

/-! ### Agreement between the instrumented and the plain dispatcher -/

/-- The instrumented guard loop computes the same continuation and response
as the guard loop of the source, whatever numbering it is given. -/
theorem runGuardsT_eq (req : SyncRequest) (i : Nat) :
    ∀ (gs : List RequestGuard) (j : Nat) (res : SyncResponse),
      ((runGuardsT req i j gs res).1, (runGuardsT req i j gs res).2.1) =
        runGuards req gs res := by
  intro gs
  induction gs with
  | nil => intro j res; rfl
  | cons g gs ih =>
    intro j res
    rcases hv : g.validate req res with ⟨c, res'⟩
    cases c with
    | Next => simpa [runGuardsT, runGuards, hv] using ih (j + 1) res'
    | None => simp [runGuardsT, runGuards, hv]

/-- The guard events of the instrumented guard loop: only guards of entry
`i` are ever run, with consecutive numbers starting at `j`. -/
theorem runGuardsT_trace (req : SyncRequest) (i : Nat) :
    ∀ (gs : List RequestGuard) (j : Nat) (res : SyncResponse),
      ∃ k : Nat, k ≤ gs.length ∧
        (runGuardsT req i j gs res).2.2 =
          (List.range' j k).map (TraceEvent.guardRun i) := by
  intro gs
  induction gs with
  | nil => intro j res; exact ⟨0, Nat.le_refl 0, rfl⟩
  | cons g gs ih =>
    intro j res
    rcases hv : g.validate req res with ⟨c, res'⟩
    cases c with
    | Next =>
      rcases ih (j + 1) res' with ⟨k, hk, htr⟩
      refine ⟨k + 1, Nat.succ_le_succ hk, ?_⟩
      simp [runGuardsT, hv, htr, List.range'_succ]
    | None =>
      exact ⟨1, Nat.succ_le_succ (Nat.zero_le _), by simp [runGuardsT, hv]⟩

/-- The instrumented dispatch loop computes the same response as the loop of
the source run on the delegates without their indices. -/
theorem dispatchLoopT_fst {T : Type} (ctx : T) (req : SyncRequest) :
    ∀ (l : List (Nat × ControllerDelegate T)) (res : SyncResponse),
      (dispatchLoopT ctx req l res).1 = dispatchLoop ctx req (l.map Prod.snd) res := by
  intro l
  induction l with
  | nil => intro res; rfl
  | cons hd rest ih =>
    intro res
    rcases hd with ⟨i, del⟩
    by_cases hm : del.reg.isMatch req.path
    · rcases hog : del.guards with _ | gc
      · simp [dispatchLoopT, dispatchLoop, hm, hog]
      · have heq := runGuardsT_eq req i gc.guards 0 res
        rcases hr : runGuardsT req i 0 gc.guards res with ⟨c, res', tr⟩
        rw [hr] at heq
        cases c with
        | Next => simp [dispatchLoopT, dispatchLoop, hm, hog, hr, ← heq]
        | None => simp [dispatchLoopT, dispatchLoop, hm, hog, hr, ← heq]
    · simpa [dispatchLoopT, dispatchLoop, hm] using ih res

/-- Filtering an enumerated list on a property of the elements and dropping
the indices is filtering the list itself. -/
theorem enumFrom_filter_map_snd {α : Type} (p : α → Bool) :
    ∀ (l : List α) (n : Nat),
      ((List.enumFrom n l).filter fun x => p x.2).map Prod.snd = l.filter p := by
  intro l
  induction l with
  | nil => intro n; rfl
  | cons a l ih =>
    intro n
    by_cases hp : p a
    · simp [List.enumFrom, List.filter_cons, hp, ih (n + 1)]
    · simp [List.enumFrom, List.filter_cons, hp, ih (n + 1)]

/-- The instrumented dispatcher computes the same response as
`ControllerDispatch::dispatch`. -/
theorem dispatchT_fst {T : Type} (d : ControllerDispatch T) (req : SyncRequest)
    (res : SyncResponse) : (d.dispatchT req res).1 = d.dispatch req res := by
  unfold ControllerDispatch.dispatchT ControllerDispatch.dispatch
  have hmap := enumFrom_filter_map_snd
    (fun x : ControllerDelegate T => x.method == req.method) d.delegates 0
  have henum : d.delegates.enum = d.delegates.enumFrom 0 := rfl
  rw [henum]
  have hlen : ((d.delegates.enumFrom 0).filter fun x => x.2.method == req.method).length
      = (d.delegates.filter fun x => x.method == req.method).length := by
    rw [← hmap, List.length_map]
  by_cases h0 :
      ((d.delegates.filter fun x => x.method == req.method).length == 0) = true
  · simp only [hlen, h0]
    rfl
  · simp only [hlen, h0]
    simp only [Bool.false_eq_true, if_false]
    rw [dispatchLoopT_fst, hmap]

/-! ### The dispatch loop at the first matching entry -/

/-- The dispatch loop processes only the first entry whose pattern matches
the path: the loop on the whole list equals the loop on that entry alone. -/
theorem dispatchLoopT_find {T : Type} (ctx : T) (req : SyncRequest) :
    ∀ (l : List (Nat × ControllerDelegate T)) (i : Nat) (del : ControllerDelegate T)
      (res : SyncResponse),
      (l.find? fun x => x.2.reg.isMatch req.path) = some (i, del) →
      dispatchLoopT ctx req l res = dispatchLoopT ctx req [(i, del)] res := by
  intro l
  induction l with
  | nil => intro i del res h; cases h
  | cons hd rest ih =>
    intro i del res h
    rcases hd with ⟨i₀, del₀⟩
    by_cases hm : del₀.reg.isMatch req.path
    · rw [List.find?_cons_of_pos _ (by simpa using hm)] at h
      have : i₀ = i ∧ del₀ = del := by
        have := Option.some.inj h
        exact ⟨congrArg Prod.fst this, congrArg Prod.snd this⟩
      rcases this with ⟨rfl, rfl⟩
      simp [dispatchLoopT, hm]
    · rw [List.find?_cons_of_neg _ (by simpa using hm)] at h
      simpa [dispatchLoopT, hm] using ih i del res h

/-- `dispatch` on a table whose retained list has a path match reduces to
processing the first matching entry alone. -/
theorem dispatchT_of_find {T : Type} (d : ControllerDispatch T) (req : SyncRequest)
    (res : SyncResponse) (i : Nat) (del : ControllerDelegate T)
    (hfind : ((d.delegates.enum.filter fun x => x.2.method == req.method).find?
        fun x => x.2.reg.isMatch req.path) = some (i, del)) :
    d.dispatchT req res = dispatchLoopT d.delegate_context req [(i, del)] res := by
  unfold ControllerDispatch.dispatchT
  have hne : (d.delegates.enum.filter fun x => x.2.method == req.method) ≠ [] := by
    intro hnil
    rw [hnil] at hfind
    cases hfind
  have hlen : (((d.delegates.enum.filter fun x => x.2.method == req.method).length == 0)
      : Bool) = false := by
    simpa [List.length_eq_zero] using hne
  simp only [hlen, Bool.false_eq_true, if_false]
  exact dispatchLoopT_find d.delegate_context req _ i del res hfind

/-- Scanning entries none of which matches the path writes `BAD_REQUEST`. -/
theorem dispatchLoop_no_match {T : Type} (ctx : T) (req : SyncRequest) :
    ∀ (l : List (ControllerDelegate T)) (res : SyncResponse),
      (∀ x ∈ l, x.reg.isMatch req.path = false) →
      dispatchLoop ctx req l res = res.status BAD_REQUEST := by
  intro l
  induction l with
  | nil => intro res _; rfl
  | cons hd rest ih =>
    intro res h
    have hm : hd.reg.isMatch req.path = false := h hd (List.mem_cons_self hd rest)
    simpa [dispatchLoop, hm] using ih res fun x hx => h x (List.mem_cons_of_mem hd hx)

/-- Scanning indexed entries none of which matches the path writes
`BAD_REQUEST` and invokes nothing. -/
theorem dispatchLoopT_no_match {T : Type} (ctx : T) (req : SyncRequest) :
    ∀ (l : List (Nat × ControllerDelegate T)) (res : SyncResponse),
      (∀ x ∈ l, x.2.reg.isMatch req.path = false) →
      dispatchLoopT ctx req l res = (res.status BAD_REQUEST, []) := by
  intro l
  induction l with
  | nil => intro res _; rfl
  | cons hd rest ih =>
    intro res h
    rcases hd with ⟨i, del⟩
    have hm : del.reg.isMatch req.path = false := h (i, del) (List.mem_cons_self _ rest)
    simpa [dispatchLoopT, hm] using ih res fun x hx => h x (List.mem_cons_of_mem _ hx)

/-- The instrumented guard loop on `gs₁ ++ g :: gs₂`, when every guard of
`gs₁` continues and `g` stops: the loop stops with `g`'s response, having
run exactly the guards up to and including `g`, and none of `gs₂`. -/
theorem runGuardsT_reject (req : SyncRequest) (i : Nat) :
    ∀ (gs₁ : List RequestGuard) (g : RequestGuard) (gs₂ : List RequestGuard)
      (j : Nat) (res res₁ res₂ : SyncResponse),
      runGuards req gs₁ res = (RequestContinuation.Next, res₁) →
      g.validate req res₁ = (RequestContinuation.None, res₂) →
      runGuardsT req i j (gs₁ ++ g :: gs₂) res =
        (RequestContinuation.None, res₂,
          (List.range' j (gs₁.length + 1)).map (TraceEvent.guardRun i)) := by
  intro gs₁
  induction gs₁ with
  | nil =>
    intro g gs₂ j res res₁ res₂ hpass hstop
    have : res = res₁ := by simpa [runGuards] using hpass
    subst this
    simp [runGuardsT, hstop, List.range'_succ]
  | cons g₀ gs₁ ih =>
    intro g gs₂ j res res₁ res₂ hpass hstop
    rcases hv : g₀.validate req res with ⟨c₀, res'⟩
    cases c₀ with
    | None =>
      rw [runGuards, hv] at hpass
      cases hpass
    | Next =>
      rw [runGuards, hv] at hpass
      have := ih g gs₂ (j + 1) res' res₁ res₂ hpass hstop
      simp [runGuardsT, hv, this, List.range'_succ]

/-- A run of guard events holds no handler event. -/
theorem filterMap_handlerIdx_guardRuns (i : Nat) :
    ∀ l : List Nat, ((l.map (TraceEvent.guardRun i)).filterMap handlerIdx) = [] := by
  intro l
  induction l with
  | nil => rfl
  | cons j l ih => simp [handlerIdx, ih]

/-- `enumFrom` of pointwise-related lists relates the numbered pairs, with
equal numbers. -/
theorem enumFrom_forall₂ {α : Type} {R : α → α → Prop} :
    ∀ {l l' : List α}, List.Forall₂ R l l' → ∀ n : Nat,
      List.Forall₂ (fun a b => a.1 = b.1 ∧ R a.2 b.2)
        (l.enumFrom n) (l'.enumFrom n) := by
  intro l l' h
  induction h with
  | nil => intro n; exact List.Forall₂.nil
  | cons hab h ih => intro n; exact List.Forall₂.cons ⟨rfl, hab⟩ (ih (n + 1))

/-- Filtering with a predicate constant on related pairs preserves the
relation. -/
theorem forall₂_filter {α : Type} {S : α → α → Prop} (p : α → Bool)
    (hp : ∀ a b, S a b → p a = p b) :
    ∀ {l l' : List α}, List.Forall₂ S l l' →
      List.Forall₂ S (l.filter p) (l'.filter p) := by
  intro l l' h
  induction h with
  | nil => exact List.Forall₂.nil
  | cons hab h ih =>
    rename_i a b l l'
    by_cases hpa : p a
    · rw [List.filter_cons_of_pos hpa, List.filter_cons_of_pos (by rw [← hp a b hab]; exact hpa)]
      exact List.Forall₂.cons hab ih
    · rw [List.filter_cons_of_neg hpa, List.filter_cons_of_neg (by rw [← hp a b hab]; exact hpa)]
      exact ih

/-- The instrumented dispatch loop is the same over lists of numbered
entries related by `entryEquiv` with equal numbers: in particular a
zero-guard collection and no collection run the guard phase to the same
trivial pass. -/
theorem dispatchLoopT_congr {T : Type} (ctx : T) (req : SyncRequest) :
    ∀ {l l' : List (Nat × ControllerDelegate T)},
      List.Forall₂ (fun a b => a.1 = b.1 ∧ entryEquiv a.2 b.2) l l' →
      ∀ res, dispatchLoopT ctx req l res = dispatchLoopT ctx req l' res := by
  intro l l' h
  induction h with
  | nil => intro res; rfl
  | cons hab h ih =>
    intro res
    rename_i a b l l'
    rcases a with ⟨i, e⟩
    rcases b with ⟨i', e'⟩
    rcases hab with ⟨hidx, hmeth, hreg, hfn, hg⟩
    cases hidx
    have hreg' : e.reg = e'.reg := hreg
    have hfn' : e.func = e'.func := hfn
    by_cases hmatch : e.reg.isMatch req.path
    · have hmatch' : e'.reg.isMatch req.path = true := by rw [← hreg']; exact hmatch
      rcases hg with heq | ⟨h1, h2⟩
      · have heq' : e.guards = e'.guards := heq
        have hmeth' : e.method = e'.method := hmeth
        have he : e = e' := by
          cases e; cases e'
          simp_all
        rw [he]
        simp [dispatchLoopT, hmatch']
      · have h1' : e.guards = some (RequestGuardCollection.mk []) := h1
        have h2' : e'.guards = Option.none := h2
        simp [dispatchLoopT, hmatch, hmatch', h1', h2', hfn', runGuardsT]
    · have hmatch' : e'.reg.isMatch req.path = false := by
        rw [← hreg']; simpa using hmatch
      simp only [dispatchLoopT, hmatch, hmatch', Bool.false_eq_true, if_false]
      exact ih res

/-! ### The claims about the dispatch algorithm -/

/-- C1: if some registered entry has the request's method and, among the
method-matching entries taken in registration order, some entry's compiled
pattern matches the request's path, then — that entry's guards all
returning `Next`, or it having no guard collection — dispatch invokes
exactly the handler of the first such matching entry exactly once and
invokes no other entry's handler: the response is one application of that
entry's handler to the guard-threaded response, and the invocation trace
holds exactly one handler event, naming that entry. -/
theorem dispatch_first_match_invokes_first_handler_once {T : Type}
    (d : ControllerDispatch T) (req : SyncRequest) (res : SyncResponse)
    (i : Nat) (del : ControllerDelegate T)
    (hfind : ((d.delegates.enum.filter fun x => x.2.method == req.method).find?
        fun x => x.2.reg.isMatch req.path) = some (i, del))
    (hg : (guardOutcome req del.guards res).1 = RequestContinuation.Next) :
    d.dispatch req res =
      del.func d.delegate_context req (guardOutcome req del.guards res).2 ∧
    (d.dispatchT req res).2.filterMap handlerIdx = [i] := by
  have hT := dispatchT_of_find d req res i del hfind
  have hm : del.reg.isMatch req.path = true := by
    simpa using List.find?_some hfind
  rcases hog : del.guards with _ | gc
  · constructor
    · rw [← dispatchT_fst, hT]
      simp [dispatchLoopT, hm, hog, guardOutcome]
    · rw [hT]
      simp [dispatchLoopT, hm, hog, handlerIdx]
  · have heq := runGuardsT_eq req i gc.guards 0 res
    rcases hr : runGuardsT req i 0 gc.guards res with ⟨c, res', tr⟩
    rw [hr] at heq
    have hgr : runGuards req gc.guards res = (c, res') := heq.symm
    have hc : c = RequestContinuation.Next := by
      rw [hog] at hg
      simpa [guardOutcome, hgr] using hg
    subst hc
    rcases runGuardsT_trace req i gc.guards 0 res with ⟨k, _, htr⟩
    rw [hr] at htr
    have htr' : tr = List.map (TraceEvent.guardRun i) (List.range' 0 k) := by
      simpa using htr
    subst htr'
    constructor
    · rw [← dispatchT_fst, hT]
      simp [dispatchLoopT, hm, hog, hr, guardOutcome, hgr]
    · rw [hT]
      simp [dispatchLoopT, hm, hog, hr, handlerIdx, List.filterMap_append,
        filterMap_handlerIdx_guardRuns]

/-- The C1 theorem at a concrete table: a guardless `GET ^/a` entry handles
`GET /a/b`, running its handler exactly once. -/
theorem dispatch_first_match_witness :
    exTable.dispatch exReq exRes =
      exDelegate.func exTable.delegate_context exReq
        (guardOutcome exReq exDelegate.guards exRes).2 ∧
    (exTable.dispatchT exReq exRes).2.filterMap handlerIdx = [0] :=
  dispatch_first_match_invokes_first_handler_once exTable exReq exRes 0 exDelegate
    rfl rfl

/-- C2: if zero registered entries have the request's method, dispatch sets
the response status to "method not allowed" and returns, whatever the
entries registered under other methods (a table with no entries at all
included), and invokes nothing. -/
theorem dispatch_no_method_match_not_allowed {T : Type} (d : ControllerDispatch T)
    (req : SyncRequest) (res : SyncResponse)
    (h : d.delegates.filter (fun x => x.method == req.method) = []) :
    d.dispatch req res = res.status METHOD_NOT_ALLOWED ∧
    (d.dispatchT req res).2 = [] := by
  have hmap := enumFrom_filter_map_snd
    (fun x : ControllerDelegate T => x.method == req.method) d.delegates 0
  constructor
  · simp [ControllerDispatch.dispatch, h]
  · have hE : (d.delegates.enum.filter fun x => x.2.method == req.method) = [] := by
      have hm : ((d.delegates.enum.filter fun x => x.2.method == req.method).map
          Prod.snd) = [] := by
        rw [show d.delegates.enum = d.delegates.enumFrom 0 from rfl, hmap, h]
      exact List.map_eq_nil_iff.mp hm
    simp [ControllerDispatch.dispatchT, hE]

/-- The C2 theorem at a concrete table: `POST /a/b` against a table with
only `GET` entries whose patterns match that very path. -/
theorem dispatch_no_method_match_witness :
    exTable.dispatch exReqPost exRes = exRes.status METHOD_NOT_ALLOWED ∧
    (exTable.dispatchT exReqPost exRes).2 = [] :=
  dispatch_no_method_match_not_allowed exTable exReqPost exRes rfl

/-- C3: if some registered entry has the request's method but no
method-matching entry's pattern matches the request's path, dispatch sets
the response status to "bad request" and returns, invoking no handler and
no guard. -/
theorem dispatch_no_path_match_bad_request {T : Type} (d : ControllerDispatch T)
    (req : SyncRequest) (res : SyncResponse)
    (hne : d.delegates.filter (fun x => x.method == req.method) ≠ [])
    (hno : ∀ x ∈ d.delegates.filter (fun x => x.method == req.method),
      x.reg.isMatch req.path = false) :
    d.dispatch req res = res.status BAD_REQUEST ∧
    (d.dispatchT req res).2 = [] := by
  have hmap := enumFrom_filter_map_snd
    (fun x : ControllerDelegate T => x.method == req.method) d.delegates 0
  have henum : d.delegates.enum = d.delegates.enumFrom 0 := rfl
  have hlen : (((d.delegates.filter fun x => x.method == req.method).length == 0)
      : Bool) = false := by
    simpa [List.length_eq_zero] using hne
  have hlm : ((d.delegates.enum.filter fun x => x.2.method == req.method)).length
      = (d.delegates.filter fun x => x.method == req.method).length := by
    rw [henum, ← hmap, List.length_map]
  constructor
  · unfold ControllerDispatch.dispatch
    simp only [hlen, Bool.false_eq_true, if_false]
    exact dispatchLoop_no_match d.delegate_context req _ res hno
  · unfold ControllerDispatch.dispatchT
    have hlenE : (((d.delegates.enum.filter fun x => x.2.method == req.method).length
        == 0) : Bool) = false := by
      rw [hlm]; exact hlen
    simp only [hlenE, Bool.false_eq_true, if_false]
    have hnoE : ∀ x ∈ (d.delegates.enum.filter fun x => x.2.method == req.method),
        x.2.reg.isMatch req.path = false := by
      intro x hx
      apply hno
      have hmem : x.2 ∈ ((d.delegates.enum.filter fun x => x.2.method == req.method).map
          Prod.snd) := List.mem_map_of_mem Prod.snd hx
      rwa [henum, hmap] at hmem
    rw [dispatchLoopT_no_match d.delegate_context req _ res hnoE]

/-- The C3 theorem at a concrete table: `GET /z` against a table whose only
entry is `GET ^/a`. -/
theorem dispatch_no_path_match_witness :
    exTable.dispatch exReqZ exRes = exRes.status BAD_REQUEST ∧
    (exTable.dispatchT exReqZ exRes).2 = [] := by
  have hfil : exTable.delegates.filter (fun x => x.method == exReqZ.method)
      = [exDelegate] := rfl
  refine dispatch_no_path_match_bad_request exTable exReqZ exRes ?_ ?_
  · rw [hfil]
    simp
  · rw [hfil]
    intro x hx
    have hx' : x = exDelegate := by simpa using hx
    subst hx'
    decide

/-- C4: if the first method-and-path-matching entry carries a guard
collection in which, after some prefix of guards has continued, a guard
returns the stop signal, dispatch returns that guard's response at once:
the trace holds exactly the guard events of that entry up to and including
the rejecting guard — no later guard of the collection, no handler, no
other entry, and no further status write. -/
theorem dispatch_guard_stop {T : Type} (d : ControllerDispatch T)
    (req : SyncRequest) (res : SyncResponse) (i : Nat) (del : ControllerDelegate T)
    (gc : RequestGuardCollection) (gs₁ : List RequestGuard) (g : RequestGuard)
    (gs₂ : List RequestGuard) (res₁ res₂ : SyncResponse)
    (hfind : ((d.delegates.enum.filter fun x => x.2.method == req.method).find?
        fun x => x.2.reg.isMatch req.path) = some (i, del))
    (hgc : del.guards = some gc)
    (hsplit : gc.guards = gs₁ ++ g :: gs₂)
    (hpass : runGuards req gs₁ res = (RequestContinuation.Next, res₁))
    (hstop : g.validate req res₁ = (RequestContinuation.None, res₂)) :
    d.dispatch req res = res₂ ∧
    (d.dispatchT req res).2 =
      (List.range (gs₁.length + 1)).map (TraceEvent.guardRun i) := by
  have hT := dispatchT_of_find d req res i del hfind
  have hm : del.reg.isMatch req.path = true := by
    simpa using List.find?_some hfind
  have hrun := runGuardsT_reject req i gs₁ g gs₂ 0 res res₁ res₂ hpass hstop
  constructor
  · rw [← dispatchT_fst, hT]
    simp [dispatchLoopT, hm, hgc, hsplit, hrun]
  · rw [hT]
    simp [dispatchLoopT, hm, hgc, hsplit, hrun, List.range_eq_range']

/-- The C4 theorem at a concrete table: the first matching `GET ^/a` entry
carries a continue-guard followed by a stop-guard writing 401; `GET /a/b`
ends with the stop-guard's response and the trace holds exactly the two
guard events of entry 0, although the table's second entry also matches. -/
theorem dispatch_guard_stop_witness :
    exGuardedTable.dispatch exReq exRes = exRes.status 401 ∧
    (exGuardedTable.dispatchT exReq exRes).2 =
      (List.range 2).map (TraceEvent.guardRun 0) :=
  dispatch_guard_stop exGuardedTable exReq exRes 0 exGuardedDelegate
    ⟨[exNextGuard, exStopGuard]⟩ [exNextGuard] exStopGuard [] exRes
    (exRes.status 401) rfl rfl rfl rfl rfl

/-- C5: dispatching against an entry whose guard collection contains zero
guards produces exactly the same outcome — response state and invocation
trace, hence handler invocations — as dispatching against the same entry
with no guard collection attached, wherever the entry sits in the table. -/
theorem empty_guard_collection_same_as_none {T : Type} (ctx : T)
    (pre post : List (ControllerDelegate T)) (m : Method) (r : Regex)
    (f : T → SyncRequest → SyncResponse → SyncResponse)
    (req : SyncRequest) (res : SyncResponse) :
    (ControllerDispatch.mk ctx (pre ++
        ControllerDelegate.mk m r (some (RequestGuardCollection.mk [])) f :: post)).dispatch
      req res =
    (ControllerDispatch.mk ctx (pre ++
        ControllerDelegate.mk m r Option.none f :: post)).dispatch req res ∧
    (ControllerDispatch.mk ctx (pre ++
        ControllerDelegate.mk m r (some (RequestGuardCollection.mk [])) f :: post)).dispatchT
      req res =
    (ControllerDispatch.mk ctx (pre ++
        ControllerDelegate.mk m r Option.none f :: post)).dispatchT req res := by
  have hF : List.Forall₂ (entryEquiv (T := T))
      (pre ++ ControllerDelegate.mk m r (some (RequestGuardCollection.mk [])) f :: post)
      (pre ++ ControllerDelegate.mk m r Option.none f :: post) := by
    refine List.rel_append ?_ (List.Forall₂.cons ?_ ?_)
    · exact List.forall₂_same.mpr fun x _ => ⟨rfl, rfl, rfl, Or.inl rfl⟩
    · exact ⟨rfl, rfl, rfl, Or.inr ⟨rfl, rfl⟩⟩
    · exact List.forall₂_same.mpr fun x _ => ⟨rfl, rfl, rfl, Or.inl rfl⟩
  have hE : List.Forall₂ (fun a b => a.1 = b.1 ∧ entryEquiv a.2 b.2)
      ((pre ++ ControllerDelegate.mk m r (some (RequestGuardCollection.mk [])) f ::
        post).enum)
      ((pre ++ ControllerDelegate.mk m r Option.none f :: post).enum) :=
    enumFrom_forall₂ hF 0
  have hp : ∀ (a b : Nat × ControllerDelegate T),
      (a.1 = b.1 ∧ entryEquiv a.2 b.2) →
      ((a.2.method == req.method) = (b.2.method == req.method)) := by
    intro a b hab
    have hm : a.2.method = b.2.method := hab.2.1
    rw [hm]
  have hFil := forall₂_filter (fun x => x.2.method == req.method) hp hE
  have hlen := hFil.length_eq
  have key :
      (ControllerDispatch.mk ctx (pre ++
          ControllerDelegate.mk m r (some (RequestGuardCollection.mk [])) f :: post)).dispatchT
        req res =
      (ControllerDispatch.mk ctx (pre ++
          ControllerDelegate.mk m r Option.none f :: post)).dispatchT req res := by
    simp only [ControllerDispatch.dispatchT]
    rw [hlen]
    by_cases h0 : ((((pre ++ ControllerDelegate.mk m r Option.none f :: post).enum).filter
        fun x => x.2.method == req.method).length == 0) = true
    · simp only [h0, if_true]
    · simp only [h0, Bool.false_eq_true, if_false]
      exact dispatchLoopT_congr ctx req hFil res
  refine ⟨?_, key⟩
  rw [← dispatchT_fst, ← dispatchT_fst, key]

/-- C6: path matching is "contains a match", not full anchoring, unless the
pattern itself anchors: the pattern compiled from `^/a` matches `/a/b`
(and the dispatcher therefore routes `GET /a/b` to a `GET ^/a` entry),
the pattern compiled from `^/a$` does not match `/a/b`, and a pattern
compiled without anchors matches exactly the paths containing its literal
anywhere. -/
theorem pattern_contains_match_semantics :
    compileRegex "^/a" = some (Regex.mk true false ['/', 'a']) ∧
    Regex.isMatch (Regex.mk true false ['/', 'a']) "/a/b" = true ∧
    compileRegex "^/a$" = some (Regex.mk true true ['/', 'a']) ∧
    Regex.isMatch (Regex.mk true true ['/', 'a']) "/a/b" = false ∧
    compileRegex "/a" = some (Regex.mk false false ['/', 'a']) ∧
    (∀ path : String, Regex.isMatch (Regex.mk false false ['/', 'a']) path =
      containsRun ['/', 'a'] path.data) ∧
    exTable.dispatch exReq exRes = exRes.status 200 :=
  ⟨by decide, by decide, by decide, by decide, by decide, fun _ => rfl, by decide⟩

/-- C7: registration with a malformed path specification fails with no
route entry added, surfacing the pattern-compilation error synchronously;
with a well-formed specification `add` and `add_with_guards` append exactly
one entry at the end of the route list, leaving every previously registered
entry unchanged. -/
theorem add_appends_one_entry_or_fails {T : Type} (d : ControllerDispatch T)
    (m : Method) (path : String) (gcol : RequestGuardCollection)
    (f : T → SyncRequest → SyncResponse → SyncResponse) :
    (compileRegex path = Option.none →
      d.add m path f = Option.none ∧
      d.add_with_guards m path gcol f = Option.none) ∧
    (∀ r : Regex, compileRegex path = some r →
      d.add m path f = some (ControllerDispatch.mk d.delegate_context
        (d.delegates ++ [ControllerDelegate.mk m r Option.none f])) ∧
      d.add_with_guards m path gcol f = some (ControllerDispatch.mk d.delegate_context
        (d.delegates ++ [ControllerDelegate.mk m r (some gcol) f]))) := by
  constructor
  · intro h
    constructor <;>
      simp [ControllerDispatch.add, ControllerDispatch.add_with_guards, h]
  · intro r h
    constructor <;>
      simp [ControllerDispatch.add, ControllerDispatch.add_with_guards, h]

/-- C8: the built-in body-presence guard returns the stop signal exactly
when the request body is empty, and the continue signal for every request
whose body has nonzero length. -/
theorem bodyGuard_stops_on_empty_body (req : SyncRequest) (res : SyncResponse) :
    (req.body.length = 0 →
      (BodyGuard.validate req res).1 = RequestContinuation.None) ∧
    (req.body.length ≠ 0 →
      (BodyGuard.validate req res).1 = RequestContinuation.Next) := by
  constructor
  · intro h
    have hb : req.body = [] := List.length_eq_zero.mp h
    simp [BodyGuard, hb]
  · intro h
    have hb : req.body ≠ [] := fun hb => h (by simp [hb])
    simp [BodyGuard, hb]

/-- C10: the built-in body-presence guard never mutates the response:
whatever signal it returns, the response is exactly the one it was given. -/
theorem bodyGuard_preserves_response (req : SyncRequest) (res : SyncResponse) :
    (BodyGuard.validate req res).2 = res := by
  by_cases h : req.body = [] <;> simp [BodyGuard, h]

end Saphir
